import Mathlib

/-!
Shallow embedding of the debounce-and-retention engine of `AutoBackup.py`
(class `BackupHandler` and the polling loop in `start`).

Timestamps (Python `time.time()` floats) are modelled as integers; only
ordering and subtraction of timestamps are used by the program, so any
linearly ordered additive group models them faithfully. The backup
directory is modelled as a list of entries in enumeration (`os.listdir`)
order, each entry carrying its name, whether it is a directory, and its
modification time.
-/

namespace AutoBackup

abbrev Timestamp := ℤ

/-- Mutable state of `BackupHandler`: `last_change_time` and
`last_backup_time`, both initialised to `0` (line 20-21 of the source). -/
structure HState where
  lastChangeTime : Timestamp
  lastBackupTime : Timestamp
deriving Repr, DecidableEq

/-- The state right after `BackupHandler.__init__`. -/
def initState : HState := ⟨0, 0⟩

/-- Embedding of `BackupHandler.on_any_event` (lines 23-25): record the
current time as `last_change_time` unless the event is a directory event. -/
def onAnyEvent (isDirectory : Bool) (now : Timestamp) (s : HState) : HState :=
  if isDirectory then s else { s with lastChangeTime := now }

/-- Embedding of `BackupHandler.should_backup` (lines 27-28):
`last_change_time > last_backup_time and (time.time() - last_change_time) >= cooldown`. -/
def shouldBackup (cooldown now : Timestamp) (s : HState) : Bool :=
  decide (s.lastChangeTime > s.lastBackupTime) &&
    decide (now - s.lastChangeTime ≥ cooldown)

/-- Maximum of a list of nonnegative timestamps (0 on the empty list). -/
def listMax (ts : List Timestamp) : Timestamp := ts.foldl max 0

/-- One directory entry of the backup directory, as seen by `os.listdir`
plus the `os.path.isdir` / `os.path.getmtime` calls the code makes on it. -/
structure Entry where
  name : String
  isDir : Bool
  mtime : Timestamp
deriving Repr, DecidableEq

/-- The filter of `cleanup_backups` line 55:
`f.endswith(".zip") or os.path.isdir(os.path.join(self.backup_dir, f))`. -/
def matchesFilter (e : Entry) : Bool :=
  ".zip".toList.isSuffixOf e.name.toList || e.isDir

/-- One insertion step of a stable descending-by-`mtime` sort: `a` is placed
before the first element whose `mtime` is not greater than `a.mtime`.
Elements that compare equal keep their original relative order, exactly as
Python's stable `sorted(..., key=getmtime, reverse=True)` (line 54-58). -/
def insertByMtimeDesc (a : Entry) : List Entry → List Entry
  | [] => [a]
  | b :: l => if b.mtime ≤ a.mtime then a :: b :: l else b :: insertByMtimeDesc a l

/-- Stable sort descending by `mtime`, modelling `sorted(..., key=lambda x:
getmtime(x), reverse=True)` of lines 54-58. A stable sort by a total
preorder is unique, so this insertion sort is extensionally the Python sort. -/
def sortByMtimeDesc : List Entry → List Entry
  | [] => []
  | a :: l => insertByMtimeDesc a (sortByMtimeDesc l)

/-- The slice `items[self.buffer_size:]` of line 59: the entries that the
cleanup loop will try to delete. Only reached when `buffer_size > 0`. -/
def excessBackups (bufferSize : ℤ) (dir : List Entry) : List Entry :=
  (sortByMtimeDesc (dir.filter matchesFilter)).drop bufferSize.toNat

/-- Net effect of `cleanup_backups` (lines 51-65) on the directory when every
deletion succeeds: if `buffer_size <= 0` return immediately; otherwise delete
the entries of `items[buffer_size:]` (matched by name). -/
def cleanupBackups (bufferSize : ℤ) (dir : List Entry) : List Entry :=
  if bufferSize ≤ 0 then dir
  else dir.filter (fun e => !((excessBackups bufferSize dir).any (fun d => d.name == e.name)))

/-- The deletion loop of lines 59-65 with a fallible delete: `ok n = false`
means `shutil.rmtree` / `os.remove` raises on the entry named `n`. The loop
has no `try`, so the first failure propagates: the result is the directory
after the deletions performed so far, the names removed so far, and
`some n` for the name whose deletion raised (or `none`). -/
def deleteLoop (ok : String → Bool) : List Entry → List Entry → List Entry × List String × Option String
  | dir, [] => (dir, [], none)
  | dir, d :: rest =>
    if ok d.name then
      match deleteLoop ok (dir.filter (fun e => e.name != d.name)) rest with
      | (dir2, removed, err) => (dir2, d.name :: removed, err)
    else (dir, [], some d.name)

/-- Net effect on the directory of successfully deleting a list of names in
order. -/
def removeNames (dir : List Entry) (names : List String) : List Entry :=
  names.foldl (fun acc n => acc.filter (fun e => e.name != n)) dir

/-- `cleanup_backups` (lines 51-65) with the fallible delete oracle. -/
def cleanupBackupsFallible (ok : String → Bool) (bufferSize : ℤ) (dir : List Entry) :
    List Entry × List String × Option String :=
  if bufferSize ≤ 0 then (dir, [], none)
  else deleteLoop ok dir (excessBackups bufferSize dir)

/-- Effect of `create_backup` (lines 30-46) on the backup directory, given
the computed `backup_name`. In zip mode, `zipfile.ZipFile(zip_path, "w")`
truncates an existing file of that name (it raises only if the path is a
directory), so an existing same-named entry is silently replaced. In copy
mode, `shutil.copytree` raises `FileExistsError` when the destination
already exists. -/
def createBackupFS (useZip : Bool) (backupName : String) (now : Timestamp)
    (dir : List Entry) : Except String (List Entry) :=
  if useZip then
    let zipName := backupName ++ ".zip"
    if dir.any (fun e => e.name == zipName && e.isDir) then
      Except.error "IsADirectoryError"
    else
      Except.ok (dir.filter (fun e => e.name != zipName) ++ [⟨zipName, false, now⟩])
  else
    if dir.any (fun e => e.name == backupName) then
      Except.error "FileExistsError"
    else
      Except.ok (dir ++ [⟨backupName, true, now⟩])

/-- Strict lexicographic order on character lists by code point, as Python
compares strings. -/
def charListLt : List Char → List Char → Bool
  | [], [] => false
  | [], _ :: _ => true
  | _ :: _, [] => false
  | a :: as, b :: bs =>
    if a.val < b.val then true else if b.val < a.val then false else charListLt as bs

/-- Modelled from the spec: one insertion step of a sort "descending by
modification time (ties broken by name descending)". The element `a` goes
before `b` exactly when `a`'s key (mtime, then name) is at least `b`'s key
in this descending lexicographic order. -/
def insertSpecDesc (a : Entry) : List Entry → List Entry
  | [] => [a]
  | b :: l =>
    if decide (b.mtime < a.mtime) ||
        (a.mtime == b.mtime && !charListLt a.name.toList b.name.toList) then
      a :: b :: l
    else b :: insertSpecDesc a l

/-- Modelled from the spec: sorting "descending by modification time; ties
broken by name descending for determinism" (spec section 4.4, step 2). -/
def sortSpecNameDesc : List Entry → List Entry
  | [] => []
  | a :: l => insertSpecDesc a (sortSpecNameDesc l)

/-- Does a character list have the exact shape `YYYY-MM-DD_HH-MM-SS` (the
`strftime` format of line 31)? -/
def timestampShaped (cs : List Char) : Bool :=
  match cs with
  | [y1, y2, y3, y4, '-', m1, m2, '-', d1, d2, '_', h1, h2, '-', n1, n2, '-', s1, s2] =>
    y1.isDigit && y2.isDigit && y3.isDigit && y4.isDigit && m1.isDigit && m2.isDigit &&
      d1.isDigit && d2.isDigit && h1.isDigit && h2.isDigit && n1.isDigit && n2.isDigit &&
      s1.isDigit && s2.isDigit
  | _ => false

/-- Modelled from the spec: the backup naming convention
`<basename>_<YYYY-MM-DD_HH-MM-SS>` with `.zip` appended in archive mode
(spec section 6, file layout; the code itself never checks names against
this shape). -/
def backupConventionName (name : String) : Bool :=
  let cs := name.toList
  let core := if ".zip".toList.isSuffixOf cs then cs.take (cs.length - 4) else cs
  decide (20 ≤ core.length) && (core.getD (core.length - 20) ' ' == '_') &&
    timestampShaped (core.drop (core.length - 19))

/-- An operation on the handler state: a filesystem event (the watchdog
callback `on_any_event`) or one iteration of the polling loop (lines
97-100), whose snapshot write succeeds iff `writeOk`. -/
inductive Op where
  | event (isDirectory : Bool)
  | poll (writeOk : Bool)
deriving Repr, DecidableEq

/-- One step of the system at time `now`. A poll with `should_backup` true
and a successful write runs `create_backup`, which sets
`last_backup_time = time.time()` (line 48). A failed write leaves the state
unchanged (line 48 is not reached); any other step leaves it unchanged. -/
def stepOp (cooldown : Timestamp) (s : HState) : Op × Timestamp → HState
  | (Op.event d, now) => onAnyEvent d now s
  | (Op.poll wOk, now) =>
    if shouldBackup cooldown now s && wOk then { s with lastBackupTime := now } else s

/-- Run a trace of timestamped operations from a state. -/
def runOps (cooldown : Timestamp) (trace : List (Op × Timestamp)) (s : HState) : HState :=
  trace.foldl (stepOp cooldown) s

/-- Result of the polling loop of `start` (lines 96-104): either all polls
were processed, or a snapshot write raised and the exception escaped the
loop (only `KeyboardInterrupt` is caught), leaving the remaining polls
unprocessed. `backups` counts successful snapshot writes. -/
inductive LoopOutcome where
  | finished (s : HState) (backups : ℕ)
  | crashed (s : HState) (backups : ℕ) (unprocessed : List (Bool × Timestamp))
deriving Repr, DecidableEq

/-- The polling loop of `start` (lines 96-104): each element of the list is
one loop iteration, giving the write-success oracle and the poll time. -/
def runLoop (cooldown : Timestamp) (s : HState) (backups : ℕ) :
    List (Bool × Timestamp) → LoopOutcome
  | [] => LoopOutcome.finished s backups
  | (wOk, now) :: rest =>
    if shouldBackup cooldown now s then
      if wOk then runLoop cooldown { s with lastBackupTime := now } (backups + 1) rest
      else LoopOutcome.crashed s backups rest
    else runLoop cooldown s backups rest

/-- Directory events leave the handler state untouched (line 24 guard). -/
theorem onAnyEvent_true_eq (t : Timestamp) (s : HState) : onAnyEvent true t s = s := rfl

/-- Any event leaves `last_backup_time` untouched. -/
theorem onAnyEvent_lastBackupTime (d : Bool) (t : Timestamp) (s : HState) :
    (onAnyEvent d t s).lastBackupTime = s.lastBackupTime := by
  unfold onAnyEvent; split <;> rfl

/-- Inserting into the stable descending sort permutes consing. -/
theorem insertByMtimeDesc_perm (a : Entry) (l : List Entry) :
    (insertByMtimeDesc a l).Perm (a :: l) := by
  induction l with
  | nil => simp [insertByMtimeDesc]
  | cons b t ih =>
    unfold insertByMtimeDesc
    split
    · exact List.Perm.refl _
    · exact (List.Perm.cons b ih).trans (List.Perm.swap a b t)

/-- The stable descending sort is a permutation of its input. -/
theorem sortByMtimeDesc_perm (l : List Entry) : (sortByMtimeDesc l).Perm l := by
  induction l with
  | nil => exact List.Perm.refl _
  | cons a t ih =>
    exact (insertByMtimeDesc_perm a (sortByMtimeDesc t)).trans (List.Perm.cons a ih)

/-- Insertion preserves the descending-by-`mtime` pairwise ordering. -/
theorem insertByMtimeDesc_pairwise (a : Entry) (l : List Entry)
    (h : l.Pairwise (fun u v => v.mtime ≤ u.mtime)) :
    (insertByMtimeDesc a l).Pairwise (fun u v => v.mtime ≤ u.mtime) := by
  induction l with
  | nil => simp [insertByMtimeDesc]
  | cons b t ih =>
    rw [List.pairwise_cons] at h
    obtain ⟨hb, ht⟩ := h
    unfold insertByMtimeDesc
    split
    · rename_i hba
      refine List.pairwise_cons.mpr ⟨?_, List.pairwise_cons.mpr ⟨hb, ht⟩⟩
      intro y hy
      rcases List.mem_cons.mp hy with rfl | hy
      · exact hba
      · exact le_trans (hb y hy) hba
    · rename_i hba
      refine List.pairwise_cons.mpr ⟨?_, ih ht⟩
      intro y hy
      have hy2 := (insertByMtimeDesc_perm a t).mem_iff.mp hy
      rcases List.mem_cons.mp hy2 with rfl | hy2
      · exact le_of_lt (lt_of_not_le hba)
      · exact hb y hy2

/-- The stable descending sort is pairwise descending by `mtime`. -/
theorem sortByMtimeDesc_pairwise (l : List Entry) :
    (sortByMtimeDesc l).Pairwise (fun u v => v.mtime ≤ u.mtime) := by
  induction l with
  | nil => exact List.Pairwise.nil
  | cons a t ih => exact insertByMtimeDesc_pairwise a (sortByMtimeDesc t) ih

/-- Insertion splits the target list at the first position whose element's
`mtime` does not exceed the inserted element's. -/
theorem insertByMtimeDesc_decomp (a : Entry) (l : List Entry) :
    ∃ l₁ l₂, l = l₁ ++ l₂ ∧ insertByMtimeDesc a l = l₁ ++ a :: l₂ ∧
      ∀ b ∈ l₁, a.mtime < b.mtime := by
  induction l with
  | nil => exact ⟨[], [], rfl, rfl, by simp⟩
  | cons b t ih =>
    by_cases hba : b.mtime ≤ a.mtime
    · refine ⟨[], b :: t, rfl, ?_, by simp⟩
      unfold insertByMtimeDesc
      rw [if_pos hba]
      rfl
    · obtain ⟨l₁, l₂, h1, h2, h3⟩ := ih
      refine ⟨b :: l₁, l₂, by rw [List.cons_append, ← h1], ?_, ?_⟩
      · unfold insertByMtimeDesc
        rw [if_neg hba, h2]
        rfl
      · intro c hc
        rcases List.mem_cons.mp hc with rfl | hc
        · exact lt_of_not_le hba
        · exact h3 c hc

/-- The original list embeds into the result of an insertion. -/
theorem sublist_insertByMtimeDesc (a : Entry) (l : List Entry) :
    l.Sublist (insertByMtimeDesc a l) := by
  obtain ⟨l₁, l₂, h1, h2, _⟩ := insertByMtimeDesc_decomp a l
  rw [h2, h1]
  exact List.Sublist.append_left (List.sublist_cons_self a l₂) l₁

/-- Stability of the descending sort: two elements of equal `mtime` keep
their relative input order in the output, exactly as Python's stable sort. -/
theorem sortByMtimeDesc_stable (x y : Entry) (l : List Entry)
    (hsub : [x, y].Sublist l) (heq : x.mtime = y.mtime) :
    [x, y].Sublist (sortByMtimeDesc l) := by
  induction l with
  | nil => simp at hsub
  | cons a t ih =>
    cases hsub with
    | cons _ h =>
      exact (ih h).trans (sublist_insertByMtimeDesc a (sortByMtimeDesc t))
    | cons₂ _ h =>
      obtain ⟨l₁, l₂, h1, h2, h3⟩ := insertByMtimeDesc_decomp x (sortByMtimeDesc t)
      have hy_mem : y ∈ sortByMtimeDesc t :=
        (sortByMtimeDesc_perm t).mem_iff.mpr (List.singleton_sublist.mp h)
      have hy2 : y ∈ l₂ := by
        rw [h1] at hy_mem
        rcases List.mem_append.mp hy_mem with h' | h'
        · exfalso
          have hlt := h3 y h'
          rw [heq] at hlt
          exact lt_irrefl _ hlt
        · exact h'
      rw [show sortByMtimeDesc (x :: t) = insertByMtimeDesc x (sortByMtimeDesc t) from rfl, h2]
      have hxy : [x, y].Sublist (x :: l₂) :=
        List.Sublist.cons₂ x (List.singleton_sublist.mpr hy2)
      exact hxy.trans (List.sublist_append_right l₁ (x :: l₂))

/-- Claim C6 counterexample: two artifacts share mtime 5 and are enumerated in
ascending name order. The code's sort is stable, so it keeps them in
ascending, not descending, name order; with retention 1 the code retains
`a.zip` whereas the claimed name-descending tiebreak would retain `b.zip`;
and reversing the (arbitrary) enumeration order flips which artifact the
code retains, so the partition is not stable across runs either. -/
theorem autoBackup_C6_counterexample :
    sortByMtimeDesc [Entry.mk "a.zip" false 5, Entry.mk "b.zip" false 5] =
        [Entry.mk "a.zip" false 5, Entry.mk "b.zip" false 5] ∧
      sortSpecNameDesc [Entry.mk "a.zip" false 5, Entry.mk "b.zip" false 5] =
        [Entry.mk "b.zip" false 5, Entry.mk "a.zip" false 5] ∧
      cleanupBackups 1 [Entry.mk "a.zip" false 5, Entry.mk "b.zip" false 5] =
        [Entry.mk "a.zip" false 5] ∧
      cleanupBackups 1 [Entry.mk "b.zip" false 5, Entry.mk "a.zip" false 5] =
        [Entry.mk "b.zip" false 5] := by decide

/-- Claim C6 amended: `cleanup_backups` sorts descending by modification time, and
on identical modification times the stable sort preserves the enumeration
(`os.listdir`) order: the retained/deleted partition is determined by the
enumeration order, not by names. -/
theorem autoBackup_C6_mtime_desc_stable (l : List Entry) (x y : Entry)
    (hsub : [x, y].Sublist l) (heq : x.mtime = y.mtime) :
    (sortByMtimeDesc l).Pairwise (fun u v => v.mtime ≤ u.mtime) ∧
      (sortByMtimeDesc l).Perm l ∧
      [x, y].Sublist (sortByMtimeDesc l) :=
  ⟨sortByMtimeDesc_pairwise l, sortByMtimeDesc_perm l,
    sortByMtimeDesc_stable x y l hsub heq⟩

/-- Witness for C6 amended on a two-element equal-mtime directory. -/
theorem autoBackup_C6_mtime_desc_stable_witness :
    ([Entry.mk "a.zip" false 5, Entry.mk "b.zip" false 5].Sublist
        [Entry.mk "a.zip" false 5, Entry.mk "b.zip" false 5] ∧
      (Entry.mk "a.zip" false 5).mtime = (Entry.mk "b.zip" false 5).mtime) ∧
      ((sortByMtimeDesc [Entry.mk "a.zip" false 5, Entry.mk "b.zip" false 5]).Pairwise
          (fun u v => v.mtime ≤ u.mtime) ∧
        (sortByMtimeDesc [Entry.mk "a.zip" false 5, Entry.mk "b.zip" false 5]).Perm
          [Entry.mk "a.zip" false 5, Entry.mk "b.zip" false 5] ∧
        [Entry.mk "a.zip" false 5, Entry.mk "b.zip" false 5].Sublist
          (sortByMtimeDesc [Entry.mk "a.zip" false 5, Entry.mk "b.zip" false 5])) :=
  ⟨⟨List.Sublist.refl _, rfl⟩,
    autoBackup_C6_mtime_desc_stable
      [Entry.mk "a.zip" false 5, Entry.mk "b.zip" false 5]
      (Entry.mk "a.zip" false 5) (Entry.mk "b.zip" false 5)
      (List.Sublist.refl _) rfl⟩

/-- Claim C7: for every retention count `N ≤ 0` and every directory contents,
`cleanup_backups` is a no-op: the `buffer_size <= 0` early return (lines
51-53) fires, so no artifact is deleted, nothing is reported removed and no
deletion can fail, regardless of how many artifacts exist. -/
theorem autoBackup_C7_nonpositive_buffer_noop (N : ℤ) (dir : List Entry)
    (ok : String → Bool) (hN : N ≤ 0) :
    cleanupBackups N dir = dir ∧ cleanupBackupsFallible ok N dir = (dir, [], none) := by
  constructor
  · unfold cleanupBackups
    simp [hN]
  · unfold cleanupBackupsFallible
    simp [hN]

/-- Witness for C7 at retention count 0 on a five-artifact directory. -/
theorem autoBackup_C7_nonpositive_buffer_noop_witness :
    (0 : ℤ) ≤ 0 ∧
      (cleanupBackups 0 [⟨"a.zip", false, 1⟩, ⟨"b.zip", false, 2⟩, ⟨"c.zip", false, 3⟩,
            ⟨"d.zip", false, 4⟩, ⟨"e.zip", false, 5⟩] =
          [⟨"a.zip", false, 1⟩, ⟨"b.zip", false, 2⟩, ⟨"c.zip", false, 3⟩,
            ⟨"d.zip", false, 4⟩, ⟨"e.zip", false, 5⟩] ∧
        cleanupBackupsFallible (fun _ => true) 0
            [⟨"a.zip", false, 1⟩, ⟨"b.zip", false, 2⟩, ⟨"c.zip", false, 3⟩,
              ⟨"d.zip", false, 4⟩, ⟨"e.zip", false, 5⟩] =
          ([⟨"a.zip", false, 1⟩, ⟨"b.zip", false, 2⟩, ⟨"c.zip", false, 3⟩,
              ⟨"d.zip", false, 4⟩, ⟨"e.zip", false, 5⟩], [], none)) :=
  ⟨by decide,
    autoBackup_C7_nonpositive_buffer_noop 0
      [⟨"a.zip", false, 1⟩, ⟨"b.zip", false, 2⟩, ⟨"c.zip", false, 3⟩,
        ⟨"d.zip", false, 4⟩, ⟨"e.zip", false, 5⟩]
      (fun _ => true) (by decide)⟩

/-- Claim C10: `on_any_event` records a change time only when the event is not a
directory event (line 24), so a stream consisting solely of directory events
leaves the handler state at its initial value and `should_backup` stays
false at every poll time: no backup is ever triggered. -/
theorem autoBackup_C10_directory_events_ignored (ts : List Timestamp)
    (cooldown now : Timestamp) :
    (∀ (t : Timestamp) (s : HState), onAnyEvent true t s = s) ∧
      ts.foldl (fun st t => onAnyEvent true t st) initState = initState ∧
      shouldBackup cooldown now (ts.foldl (fun st t => onAnyEvent true t st) initState) = false := by
  have hid : ∀ (t : Timestamp) (s : HState), onAnyEvent true t s = s := fun _ _ => rfl
  have hfold : ts.foldl (fun st t => onAnyEvent true t st) initState = initState := by
    induction ts with
    | nil => rfl
    | cons t ts ih => simp [hid, ih]
  refine ⟨hid, hfold, ?_⟩
  rw [hfold]
  simp [shouldBackup, initState]

/-- With a positive buffer size, `cleanup_backups` removes exactly the
excess artifacts, matched by name. -/
theorem cleanupBackups_pos (N : ℤ) (hN : 0 < N) (dir : List Entry) :
    cleanupBackups N dir =
      dir.filter (fun e => !((excessBackups N dir).any (fun d => d.name == e.name))) := by
  unfold cleanupBackups
  rw [if_neg (by omega : ¬ N ≤ 0)]

/-- If the directory's entry names are distinct, so are the names of the
sorted matching artifacts. -/
theorem sorted_names_nodup (dir : List Entry)
    (hnames : (dir.map Entry.name).Nodup) :
    ((sortByMtimeDesc (dir.filter matchesFilter)).map Entry.name).Nodup := by
  have h1 : ((dir.filter matchesFilter).map Entry.name).Sublist (dir.map Entry.name) :=
    (List.filter_sublist dir).map Entry.name
  have h2 : ((dir.filter matchesFilter).map Entry.name).Nodup := h1.nodup hnames
  exact ((sortByMtimeDesc_perm (dir.filter matchesFilter)).map Entry.name).symm.nodup h2

/-- Claim C2: after `cleanup_backups` with retention `N > 0` on a directory with
distinct entry names, the matching artifacts remaining in the directory are
exactly (a permutation of) the first `N` entries of the pre-deletion sort,
their number is `min N totalArtifactsBefore`, and every retained artifact's
modification time is at least every deleted artifact's — they are the `N`
most-recently-modified ones as ordered before deletion. -/
theorem autoBackup_C2_retention_invariant (N : ℤ) (dir : List Entry)
    (hN : 0 < N) (hnames : (dir.map Entry.name).Nodup) :
    ((cleanupBackups N dir).filter matchesFilter).Perm
        ((sortByMtimeDesc (dir.filter matchesFilter)).take N.toNat) ∧
      ((cleanupBackups N dir).filter matchesFilter).length =
        min N.toNat (dir.filter matchesFilter).length ∧
      ∀ k ∈ (sortByMtimeDesc (dir.filter matchesFilter)).take N.toNat,
        ∀ d ∈ excessBackups N dir, d.mtime ≤ k.mtime := by
  have hperm0 : (dir.filter matchesFilter).Perm (sortByMtimeDesc (dir.filter matchesFilter)) :=
    (sortByMtimeDesc_perm _).symm
  have hnodup := sorted_names_nodup dir hnames
  have hsplit : (sortByMtimeDesc (dir.filter matchesFilter)).take N.toNat ++
      (sortByMtimeDesc (dir.filter matchesFilter)).drop N.toNat =
      sortByMtimeDesc (dir.filter matchesFilter) := List.take_append_drop _ _
  have hexcess : excessBackups N dir = (sortByMtimeDesc (dir.filter matchesFilter)).drop N.toNat := rfl
  have hnd2 : (((sortByMtimeDesc (dir.filter matchesFilter)).take N.toNat).map Entry.name ++
      ((sortByMtimeDesc (dir.filter matchesFilter)).drop N.toNat).map Entry.name).Nodup := by
    rw [← List.map_append, hsplit]
    exact hnodup
  have hdisj := (List.nodup_append.mp hnd2).2.2
  have hpt : ∀ k ∈ (sortByMtimeDesc (dir.filter matchesFilter)).take N.toNat,
      (!((excessBackups N dir).any (fun d => d.name == k.name))) = true := by
    intro k hk
    have hany : (excessBackups N dir).any (fun d => d.name == k.name) = false := by
      rw [List.any_eq_false]
      intro d hd hbe
      rw [hexcess] at hd
      rw [beq_iff_eq] at hbe
      exact hdisj (List.mem_map_of_mem Entry.name hk)
        (hbe ▸ List.mem_map_of_mem Entry.name hd)
    rw [hany]
    rfl
  have hpd : ∀ d ∈ (sortByMtimeDesc (dir.filter matchesFilter)).drop N.toNat,
      ¬((!((excessBackups N dir).any (fun x => x.name == d.name))) = true) := by
    intro d hd
    have hany : (excessBackups N dir).any (fun x => x.name == d.name) = true :=
      List.any_eq_true.mpr ⟨d, by rw [hexcess]; exact hd, by simp⟩
    rw [hany]
    simp
  have hfeq : (sortByMtimeDesc (dir.filter matchesFilter)).filter
      (fun e => !((excessBackups N dir).any (fun d => d.name == e.name))) =
      (sortByMtimeDesc (dir.filter matchesFilter)).take N.toNat := by
    conv_lhs => rw [← hsplit]
    rw [List.filter_append, List.filter_eq_self.mpr hpt, List.filter_eq_nil_iff.mpr hpd,
      List.append_nil]
  have hmain : ((cleanupBackups N dir).filter matchesFilter).Perm
      ((sortByMtimeDesc (dir.filter matchesFilter)).take N.toNat) := by
    rw [cleanupBackups_pos N hN dir, List.filter_comm, ← hfeq]
    exact hperm0.filter _
  refine ⟨hmain, ?_, ?_⟩
  · rw [hmain.length_eq, List.length_take, hperm0.length_eq]
  · intro k hk d hd
    have hpair := sortByMtimeDesc_pairwise (dir.filter matchesFilter)
    rw [← hsplit] at hpair
    rw [hexcess] at hd
    exact (List.pairwise_append.mp hpair).2.2 k hk d hd

/-- Witness for C2: retention 2 on a three-artifact directory (plus the log
file) keeps the two most recent artifacts. -/
theorem autoBackup_C2_retention_invariant_witness :
    ((0 : ℤ) < 2 ∧
      (([Entry.mk "a.zip" false 1, Entry.mk "b.zip" false 3, Entry.mk "c.zip" false 2,
          Entry.mk "backup_log.txt" false 9] : List Entry).map Entry.name).Nodup) ∧
      (((cleanupBackups 2 [Entry.mk "a.zip" false 1, Entry.mk "b.zip" false 3,
            Entry.mk "c.zip" false 2, Entry.mk "backup_log.txt" false 9]).filter
          matchesFilter).Perm
          ((sortByMtimeDesc (([Entry.mk "a.zip" false 1, Entry.mk "b.zip" false 3,
            Entry.mk "c.zip" false 2, Entry.mk "backup_log.txt" false 9] : List Entry).filter
              matchesFilter)).take (2 : ℤ).toNat) ∧
        ((cleanupBackups 2 [Entry.mk "a.zip" false 1, Entry.mk "b.zip" false 3,
            Entry.mk "c.zip" false 2, Entry.mk "backup_log.txt" false 9]).filter
          matchesFilter).length =
          min (2 : ℤ).toNat (([Entry.mk "a.zip" false 1, Entry.mk "b.zip" false 3,
            Entry.mk "c.zip" false 2, Entry.mk "backup_log.txt" false 9] : List Entry).filter
              matchesFilter).length ∧
        ∀ k ∈ (sortByMtimeDesc (([Entry.mk "a.zip" false 1, Entry.mk "b.zip" false 3,
            Entry.mk "c.zip" false 2, Entry.mk "backup_log.txt" false 9] : List Entry).filter
              matchesFilter)).take (2 : ℤ).toNat,
          ∀ d ∈ excessBackups 2 [Entry.mk "a.zip" false 1, Entry.mk "b.zip" false 3,
            Entry.mk "c.zip" false 2, Entry.mk "backup_log.txt" false 9],
            d.mtime ≤ k.mtime) :=
  ⟨⟨by decide, by decide⟩,
    autoBackup_C2_retention_invariant 2
      [Entry.mk "a.zip" false 1, Entry.mk "b.zip" false 3, Entry.mk "c.zip" false 2,
        Entry.mk "backup_log.txt" false 9] (by decide) (by decide)⟩

/-- Claim C9 counterexample: the directory named `misc` does not match the backup
naming convention, yet `cleanup_backups` with retention 2 counts it among
the artifacts (the code's filter accepts every directory) and deletes it as
the oldest: non-convention entries are neither ignored nor safe from
deletion. The log file, a plain non-zip file, does survive. -/
theorem autoBackup_C9_counterexample :
    backupConventionName "misc" = false ∧
      Entry.mk "misc" true 1 ∈
        ([Entry.mk "misc" true 1, Entry.mk "b_2025-01-01_00-00-00.zip" false 3,
          Entry.mk "b_2025-01-01_00-00-01.zip" false 2,
          Entry.mk "backup_log.txt" false 9] : List Entry) ∧
      cleanupBackups 2 [Entry.mk "misc" true 1, Entry.mk "b_2025-01-01_00-00-00.zip" false 3,
          Entry.mk "b_2025-01-01_00-00-01.zip" false 2,
          Entry.mk "backup_log.txt" false 9] =
        [Entry.mk "b_2025-01-01_00-00-00.zip" false 3,
          Entry.mk "b_2025-01-01_00-00-01.zip" false 2,
          Entry.mk "backup_log.txt" false 9] := by decide

/-- Claim C9 amended: `cleanup_backups` enumerates direct children that end in
`.zip` or are directories — with no check of the backup name shape — and an
entry that is neither (a plain file not ending in `.zip`, such as
`backup_log.txt`) is never counted among the artifacts and never deleted. -/
theorem autoBackup_C9_nonmatching_plain_files_ignored (N : ℤ) (dir : List Entry)
    (e : Entry) (he : e ∈ dir) (hm : matchesFilter e = false)
    (hnames : (dir.map Entry.name).Nodup) :
    e ∉ dir.filter matchesFilter ∧ e ∈ cleanupBackups N dir := by
  constructor
  · intro hmem
    have hcontra := (List.mem_filter.mp hmem).2
    rw [hm] at hcontra
    exact Bool.false_ne_true hcontra
  · by_cases hN : N ≤ 0
    · unfold cleanupBackups
      rw [if_pos hN]
      exact he
    · rw [cleanupBackups_pos N (by omega) dir]
      rw [List.mem_filter]
      refine ⟨he, ?_⟩
      have hany : (excessBackups N dir).any (fun d => d.name == e.name) = false := by
        rw [List.any_eq_false]
        intro d hd hbe
        rw [beq_iff_eq] at hbe
        have hd2 : d ∈ sortByMtimeDesc (dir.filter matchesFilter) :=
          (List.drop_sublist _ _).subset hd
        have hd3 : d ∈ dir.filter matchesFilter :=
          (sortByMtimeDesc_perm _).mem_iff.mp hd2
        obtain ⟨hdd, hdm⟩ := List.mem_filter.mp hd3
        have hde : d = e := List.inj_on_of_nodup_map hnames hdd he hbe
        rw [hde, hm] at hdm
        exact Bool.false_ne_true hdm
      rw [hany]
      rfl

/-- Witness for C9 amended: the log file `backup_log.txt` survives cleanup
and is not counted, for any retention count (here 1). -/
theorem autoBackup_C9_nonmatching_plain_files_ignored_witness :
    (Entry.mk "backup_log.txt" false 9 ∈
        ([Entry.mk "a.zip" false 1, Entry.mk "b.zip" false 2,
          Entry.mk "backup_log.txt" false 9] : List Entry) ∧
      matchesFilter (Entry.mk "backup_log.txt" false 9) = false ∧
      (([Entry.mk "a.zip" false 1, Entry.mk "b.zip" false 2,
          Entry.mk "backup_log.txt" false 9] : List Entry).map Entry.name).Nodup) ∧
      (Entry.mk "backup_log.txt" false 9 ∉
          ([Entry.mk "a.zip" false 1, Entry.mk "b.zip" false 2,
            Entry.mk "backup_log.txt" false 9] : List Entry).filter matchesFilter ∧
        Entry.mk "backup_log.txt" false 9 ∈
          cleanupBackups 1 [Entry.mk "a.zip" false 1, Entry.mk "b.zip" false 2,
            Entry.mk "backup_log.txt" false 9]) :=
  ⟨⟨by decide, by decide, by decide⟩,
    autoBackup_C9_nonmatching_plain_files_ignored 1
      [Entry.mk "a.zip" false 1, Entry.mk "b.zip" false 2, Entry.mk "backup_log.txt" false 9]
      (Entry.mk "backup_log.txt" false 9) (by decide) (by decide) (by decide)⟩

/-- The `should_backup` condition is level-triggered: once true for a state,
it stays true at every later poll time, since the state is unchanged. -/
theorem shouldBackup_level (cooldown now later : Timestamp) (s : HState)
    (h : shouldBackup cooldown now s = true) (hle : now ≤ later) :
    shouldBackup cooldown later s = true := by
  unfold shouldBackup at h ⊢
  simp only [Bool.and_eq_true, decide_eq_true_eq] at h ⊢
  obtain ⟨h1, h2⟩ := h
  refine ⟨h1, ?_⟩
  linarith

/-- Claim C4 counterexample: with a pending change (state `⟨2, 0⟩`, cooldown 5) and
a snapshot write that fails at the poll at t=10, the loop crashes: the polls
at t=11 and t=12 — where the writer is healthy again and `should_backup`
still holds — are never processed and zero backups are made, so no automatic
retry occurs. -/
theorem autoBackup_C4_counterexample :
    runLoop 5 ⟨2, 0⟩ 0 [(false, 10), (true, 11), (true, 12)] =
        LoopOutcome.crashed ⟨2, 0⟩ 0 [(true, 11), (true, 12)] ∧
      shouldBackup 5 11 ⟨2, 0⟩ = true := by decide

/-- Claim C4 amended: when the snapshot write raises during a poll, `last_backup_time`
is not updated and `should_backup` stays true at every later time, but the
exception propagates out of the polling loop (which catches only
`KeyboardInterrupt`): the loop terminates with the remaining polls
unprocessed, the error is not logged, and no retry occurs. -/
theorem autoBackup_C4_failed_write_crashes_loop (cooldown now : Timestamp)
    (s : HState) (b : ℕ) (rest : List (Bool × Timestamp))
    (h : shouldBackup cooldown now s = true) :
    runLoop cooldown s b ((false, now) :: rest) = LoopOutcome.crashed s b rest ∧
      ∀ later : Timestamp, now ≤ later → shouldBackup cooldown later s = true := by
  constructor
  · unfold runLoop
    simp [h]
  · intro later hle
    exact shouldBackup_level cooldown now later s h hle

/-- Witness for C4 amended at a concrete pending-change state. -/
theorem autoBackup_C4_failed_write_crashes_loop_witness :
    shouldBackup 5 10 ⟨2, 0⟩ = true ∧
      (runLoop 5 ⟨2, 0⟩ 0 [(false, 10), (true, 20)] =
          LoopOutcome.crashed ⟨2, 0⟩ 0 [(true, 20)] ∧
        ∀ later : ℤ, 10 ≤ later → shouldBackup 5 later ⟨2, 0⟩ = true) :=
  ⟨by decide, autoBackup_C4_failed_write_crashes_loop 5 10 ⟨2, 0⟩ 0 [(true, 20)] (by decide)⟩

/-- Claim C3 counterexample: in ZIP mode, a second backup cycle whose computed
name collides with an existing archive does not fail: `ZipFile(path, "w")`
truncates the existing file, so the write succeeds, the artifact is silently
overwritten (its mtime moves from 1 to 2) and no error is produced —
contradicting the claim that a collision fails loudly in both modes. -/
theorem autoBackup_C3_counterexample :
    createBackupFS true "b_2025-01-01_00-00-00" 2
        [Entry.mk "b_2025-01-01_00-00-00.zip" false 1] =
      Except.ok [Entry.mk "b_2025-01-01_00-00-00.zip" false 2] := by rfl

/-- Claim C3 amended: on a name collision the two modes differ. In copy mode
`shutil.copytree` raises `FileExistsError`, leaving the existing artifact in
place; in ZIP mode the write succeeds unconditionally (when no directory
occupies the zip path), replacing any same-named archive, so after the cycle
exactly one artifact carries the computed name, with no error recorded. -/
theorem autoBackup_C3_zip_overwrites_copy_fails (dir : List Entry)
    (bname : String) (now : Timestamp)
    (hnd : ∀ e ∈ dir, e.name = bname ++ ".zip" → e.isDir = false) :
    (∃ dir2 : List Entry,
        createBackupFS true bname now dir = Except.ok dir2 ∧
        dir2 = dir.filter (fun e => e.name != bname ++ ".zip") ++
          [Entry.mk (bname ++ ".zip") false now] ∧
        dir2.countP (fun e => e.name == bname ++ ".zip") = 1) ∧
      (bname ∈ dir.map Entry.name →
        createBackupFS false bname now dir = Except.error "FileExistsError") := by
  constructor
  · refine ⟨dir.filter (fun e => e.name != bname ++ ".zip") ++
      [Entry.mk (bname ++ ".zip") false now], ?_, rfl, ?_⟩
    · unfold createBackupFS
      have hany : dir.any (fun e => e.name == bname ++ ".zip" && e.isDir) = false := by
        rw [List.any_eq_false]
        intro e he
        simp only [Bool.and_eq_true, beq_iff_eq, not_and]
        intro hn
        simp [hnd e he hn]
      simp [hany]
    · rw [List.countP_append]
      have h0 : (dir.filter (fun e => e.name != bname ++ ".zip")).countP
          (fun e => e.name == bname ++ ".zip") = 0 := by
        rw [List.countP_eq_zero]
        intro e he
        have := (List.mem_filter.mp he).2
        simpa using this
      rw [h0]
      simp [List.countP_cons]
  · intro hmem
    unfold createBackupFS
    have hany : dir.any (fun e => e.name == bname) = true := by
      rw [List.any_eq_true]
      obtain ⟨e, he, hn⟩ := List.mem_map.mp hmem
      exact ⟨e, he, by simp [hn]⟩
    simp [hany]

/-- Witness for C3 amended: a directory holding both a colliding archive and
a colliding copy-mode folder name. -/
theorem autoBackup_C3_zip_overwrites_copy_fails_witness :
    (∀ e ∈ ([Entry.mk "b" true 1, Entry.mk "b.zip" false 1] : List Entry),
        e.name = "b" ++ ".zip" → e.isDir = false) ∧
      ((∃ dir2 : List Entry,
          createBackupFS true "b" 2 [Entry.mk "b" true 1, Entry.mk "b.zip" false 1] =
            Except.ok dir2 ∧
          dir2 = ([Entry.mk "b" true 1, Entry.mk "b.zip" false 1] : List Entry).filter
              (fun e => e.name != "b" ++ ".zip") ++ [Entry.mk ("b" ++ ".zip") false 2] ∧
          dir2.countP (fun e => e.name == "b" ++ ".zip") = 1) ∧
        ("b" ∈ ([Entry.mk "b" true 1, Entry.mk "b.zip" false 1] : List Entry).map Entry.name →
          createBackupFS false "b" 2 [Entry.mk "b" true 1, Entry.mk "b.zip" false 1] =
            Except.error "FileExistsError")) :=
  ⟨by decide,
    autoBackup_C3_zip_overwrites_copy_fails [Entry.mk "b" true 1, Entry.mk "b.zip" false 1]
      "b" 2 (by decide)⟩

/-- Claim C5 counterexample: with retention 1, the excess artifacts are `x` then
`y`; the deletion of `x` fails, and although `y`'s deletion would succeed,
it is never attempted — the loop has no `try`, so the first failure aborts
the cleanup with nothing removed and the exception propagated, refuting
independence of deletions and aggregated error reporting. -/
theorem autoBackup_C5_counterexample :
    cleanupBackupsFallible (fun n => n != "x") 1
        [⟨"a.zip", false, 3⟩, ⟨"x", true, 2⟩, ⟨"y", true, 1⟩] =
      ([⟨"a.zip", false, 3⟩, ⟨"x", true, 2⟩, ⟨"y", true, 1⟩], [], some "x") ∧
      (fun n => n != "x") "y" = true ∧
      Entry.mk "y" true 1 ∈ excessBackups 1
        [⟨"a.zip", false, 3⟩, ⟨"x", true, 2⟩, ⟨"y", true, 1⟩] := by decide

/-- Claim C5 amended: the deletion loop (lines 59-65) aborts at the first failing
deletion: the artifacts before it are deleted (and logged), the failing one
and every later excess artifact are left untouched and never attempted, and
the exception propagates instead of an aggregated error report. -/
theorem autoBackup_C5_first_failure_aborts (ok : String → Bool) (dir : List Entry)
    (pre : List Entry) (d : Entry) (post : List Entry)
    (hpre : ∀ p ∈ pre, ok p.name = true) (hd : ok d.name = false) :
    deleteLoop ok dir (pre ++ d :: post) =
      (removeNames dir (pre.map Entry.name), pre.map Entry.name, some d.name) := by
  induction pre generalizing dir with
  | nil =>
    simp only [List.nil_append, List.map_nil]
    unfold deleteLoop
    simp [hd, removeNames]
  | cons p pre ih =>
    have hp : ok p.name = true := hpre p (List.mem_cons_self _ _)
    have hrest : ∀ q ∈ pre, ok q.name = true := fun q hq => hpre q (List.mem_cons_of_mem _ hq)
    simp only [List.cons_append, List.map_cons]
    unfold deleteLoop
    rw [if_pos hp, ih _ hrest]
    simp [removeNames]

/-- Witness for C5 amended: one successful deletion, then a failure, then an
untouched remainder. -/
theorem autoBackup_C5_first_failure_aborts_witness :
    (∀ p ∈ [Entry.mk "p" true 2], (fun n => n != "x") p.name = true) ∧
      (fun n => n != "x") (Entry.mk "x" true 1).name = false ∧
      deleteLoop (fun n => n != "x")
          [⟨"p", true, 2⟩, ⟨"x", true, 1⟩, ⟨"y", true, 0⟩]
          ([Entry.mk "p" true 2] ++ Entry.mk "x" true 1 :: [Entry.mk "y" true 0]) =
        (removeNames [⟨"p", true, 2⟩, ⟨"x", true, 1⟩, ⟨"y", true, 0⟩]
            ([Entry.mk "p" true 2].map Entry.name),
          [Entry.mk "p" true 2].map Entry.name, some (Entry.mk "x" true 1).name) :=
  ⟨by decide, by decide,
    autoBackup_C5_first_failure_aborts (fun n => n != "x")
      [⟨"p", true, 2⟩, ⟨"x", true, 1⟩, ⟨"y", true, 0⟩]
      [Entry.mk "p" true 2] (Entry.mk "x" true 1) [Entry.mk "y" true 0]
      (by decide) (by decide)⟩

/-- Recording a nonempty sequence of changes leaves `last_backup_time`
alone and sets `last_change_time` to the last recorded timestamp. -/
theorem foldl_recordChange (ts : List Timestamp) (s : HState) (h : ts ≠ []) :
    ts.foldl (fun st t => onAnyEvent false t st) s =
      ⟨ts.getLast h, s.lastBackupTime⟩ := by
  induction ts generalizing s with
  | nil => exact absurd rfl h
  | cons t rest ih =>
    cases rest with
    | nil => rfl
    | cons t2 rest2 =>
      rw [List.foldl_cons, ih (onAnyEvent false t s) (List.cons_ne_nil t2 rest2)]
      rfl

/-- The accumulator is a lower bound of a `foldl max`. -/
theorem le_foldl_max (ts : List Timestamp) (a : Timestamp) : a ≤ ts.foldl max a := by
  induction ts generalizing a with
  | nil => exact le_refl a
  | cons t rest ih => exact le_trans (le_max_left a t) (ih (max a t))

/-- Every member is a lower bound of a `foldl max`. -/
theorem mem_le_foldl_max (ts : List Timestamp) (a t : Timestamp) (h : t ∈ ts) :
    t ≤ ts.foldl max a := by
  induction ts generalizing a with
  | nil => simp at h
  | cons u rest ih =>
    rcases List.mem_cons.mp h with rfl | h2
    · exact le_trans (le_max_right a t) (le_foldl_max rest (max a t))
    · exact ih (max a u) h2

/-- A `foldl max` is bounded by any common upper bound. -/
theorem foldl_max_le (ts : List Timestamp) (a M : Timestamp)
    (hM : ∀ t ∈ ts, t ≤ M) (ha : a ≤ M) : ts.foldl max a ≤ M := by
  induction ts generalizing a with
  | nil => exact ha
  | cons u rest ih =>
    exact ih (max a u) (fun t ht => hM t (List.mem_cons_of_mem u ht))
      (max_le ha (hM u (List.mem_cons_self u rest)))

/-- In a nondecreasing list every element is at most the last one. -/
theorem chain_le_getLast (ts : List Timestamp) (hchain : List.Chain' (· ≤ ·) ts)
    (hne : ts ≠ []) : ∀ t ∈ ts, t ≤ ts.getLast hne := by
  have hpair : ts.Pairwise (· ≤ ·) := List.chain'_iff_pairwise.mp hchain
  intro t ht
  have hsplit := List.dropLast_append_getLast hne
  rw [← hsplit] at hpair ht
  rcases List.mem_append.mp ht with h' | h'
  · exact (List.pairwise_append.mp hpair).2.2 t h' (ts.getLast hne) (List.mem_singleton_self _)
  · rw [List.mem_singleton.mp h']

/-- For a nonempty nondecreasing list of nonnegative timestamps, the
maximum is the last element. -/
theorem listMax_eq_getLast (ts : List Timestamp) (hne : ts ≠ [])
    (hchain : List.Chain' (· ≤ ·) ts) (hpos : ∀ t ∈ ts, 0 ≤ t) :
    listMax ts = ts.getLast hne := by
  refine le_antisymm ?_ ?_
  · exact foldl_max_le ts 0 (ts.getLast hne) (chain_le_getLast ts hchain hne)
      (hpos _ (List.getLast_mem hne))
  · exact mem_le_foldl_max ts 0 _ (List.getLast_mem hne)

/-- Claim C1: `should_backup` is true iff a change has been recorded
(`last_change_time` nonzero, given nonnegative clocks), it is newer than
the last backup, and the cooldown has elapsed; equivalently, after any
nonempty monotone sequence of `RecordChange(t_i)` calls followed by a poll
at `t_p`, it is true iff `t_p - max(t_i) ≥ cooldown` and
`max(t_i) > lastBackupTime`. -/
theorem autoBackup_C1_should_backup_iff (s : HState) (cooldown tp : Timestamp)
    (ts : List Timestamp) (h0 : 0 ≤ s.lastBackupTime) (hne : ts ≠ [])
    (hchain : List.Chain' (· ≤ ·) ts) (hpos : ∀ t ∈ ts, 0 ≤ t) :
    (shouldBackup cooldown tp s = true ↔
        (s.lastChangeTime ≠ 0 ∧ s.lastBackupTime < s.lastChangeTime ∧
          cooldown ≤ tp - s.lastChangeTime)) ∧
      (shouldBackup cooldown tp (ts.foldl (fun st t => onAnyEvent false t st) s) = true ↔
        (cooldown ≤ tp - listMax ts ∧ s.lastBackupTime < listMax ts)) := by
  constructor
  · unfold shouldBackup
    simp only [Bool.and_eq_true, decide_eq_true_eq]
    constructor
    · rintro ⟨h1, h2⟩
      refine ⟨?_, h1, by linarith⟩
      intro hzero
      rw [hzero] at h1
      linarith
    · rintro ⟨_, h1, h2⟩
      exact ⟨h1, by linarith⟩
  · rw [foldl_recordChange ts s hne, listMax_eq_getLast ts hne hchain hpos]
    unfold shouldBackup
    simp only [Bool.and_eq_true, decide_eq_true_eq]
    constructor
    · rintro ⟨h1, h2⟩
      exact ⟨by linarith, h1⟩
    · rintro ⟨h1, h2⟩
      exact ⟨h2, by linarith⟩

/-- Witness for C1: changes at t=1,2,3, poll at t=10, cooldown 5. -/
theorem autoBackup_C1_should_backup_iff_witness :
    ((0 : ℤ) ≤ (HState.mk 0 0).lastBackupTime ∧ ([1, 2, 3] : List ℤ) ≠ [] ∧
      List.Chain' (· ≤ ·) ([1, 2, 3] : List ℤ) ∧ ∀ t ∈ ([1, 2, 3] : List ℤ), 0 ≤ t) ∧
      ((shouldBackup 5 10 (HState.mk 0 0) = true ↔
          ((HState.mk 0 0).lastChangeTime ≠ 0 ∧
            (HState.mk 0 0).lastBackupTime < (HState.mk 0 0).lastChangeTime ∧
            (5 : ℤ) ≤ 10 - (HState.mk 0 0).lastChangeTime)) ∧
        (shouldBackup 5 10
            (([1, 2, 3] : List ℤ).foldl (fun st t => onAnyEvent false t st) (HState.mk 0 0)) =
            true ↔
          ((5 : ℤ) ≤ 10 - listMax [1, 2, 3] ∧
            (HState.mk 0 0).lastBackupTime < listMax [1, 2, 3]))) :=
  ⟨⟨by decide, by decide, by simp [List.chain'_cons], by decide⟩,
    autoBackup_C1_should_backup_iff (HState.mk 0 0) 5 10 [1, 2, 3]
      (by decide) (by decide) (by simp [List.chain'_cons]) (by decide)⟩

/-- Each step either keeps `last_backup_time` or stamps it with the step's
time. -/
theorem stepOp_lastBackupTime (cooldown : Timestamp) (s : HState) (op : Op)
    (now : Timestamp) :
    (stepOp cooldown s (op, now)).lastBackupTime = s.lastBackupTime ∨
      (stepOp cooldown s (op, now)).lastBackupTime = now := by
  cases op with
  | event d => exact Or.inl (onAnyEvent_lastBackupTime d now s)
  | poll wOk =>
    have hstep : stepOp cooldown s (Op.poll wOk, now) =
        if shouldBackup cooldown now s && wOk then { s with lastBackupTime := now } else s := rfl
    rw [hstep]
    split
    · exact Or.inr rfl
    · exact Or.inl rfl

/-- Along any trace whose times are nondecreasing and start no earlier than
the current `last_backup_time`, the final `last_backup_time` is at least the
initial one. -/
theorem runOps_lastBackupTime_mono (cooldown : Timestamp)
    (trace : List (Op × Timestamp)) (s : HState)
    (h : List.Chain' (· ≤ ·) (s.lastBackupTime :: trace.map Prod.snd)) :
    s.lastBackupTime ≤ (runOps cooldown trace s).lastBackupTime := by
  induction trace generalizing s with
  | nil => exact le_refl _
  | cons hd tl ih =>
    obtain ⟨op, now⟩ := hd
    rw [List.map_cons] at h
    have h1 : s.lastBackupTime ≤ now := (List.chain'_cons.mp h).1
    have h2 : List.Chain' (· ≤ ·) (now :: tl.map Prod.snd) := (List.chain'_cons.mp h).2
    have hchain2 : List.Chain' (· ≤ ·)
        ((stepOp cooldown s (op, now)).lastBackupTime :: tl.map Prod.snd) := by
      obtain hc | hc := stepOp_lastBackupTime cooldown s op now
      · rw [hc]
        cases htl : tl.map Prod.snd with
        | nil => simp
        | cons u us =>
          rw [htl] at h2
          exact List.chain'_cons.mpr
            ⟨le_trans h1 (List.chain'_cons.mp h2).1, (List.chain'_cons.mp h2).2⟩
      · rw [hc]
        exact h2
    have hle2 : s.lastBackupTime ≤ (stepOp cooldown s (op, now)).lastBackupTime := by
      obtain hc | hc := stepOp_lastBackupTime cooldown s op now
      · rw [hc]
      · rw [hc]
        exact h1
    exact le_trans hle2 (ih (stepOp cooldown s (op, now)) hchain2)

/-- Claim C8: along every trace of events and polls with a nondecreasing clock,
`last_backup_time`, once set, is monotonically non-decreasing; moreover a
step changes it only when it is a poll whose snapshot write succeeds while
`should_backup` holds (a successful `create_backup`, line 48), in which
case it is stamped with that poll's time — never on a failed or skipped
cycle. -/
theorem autoBackup_C8_lastBackupTime_monotone (cooldown : Timestamp)
    (trace : List (Op × Timestamp)) (s : HState)
    (h : List.Chain' (· ≤ ·) (s.lastBackupTime :: trace.map Prod.snd)) :
    s.lastBackupTime ≤ (runOps cooldown trace s).lastBackupTime ∧
      ∀ (op : Op) (now : Timestamp) (u : HState),
        (stepOp cooldown u (op, now)).lastBackupTime ≠ u.lastBackupTime →
          op = Op.poll true ∧ shouldBackup cooldown now u = true ∧
            (stepOp cooldown u (op, now)).lastBackupTime = now := by
  refine ⟨runOps_lastBackupTime_mono cooldown trace s h, ?_⟩
  intro op now u hne2
  cases op with
  | event d => exact absurd (onAnyEvent_lastBackupTime d now u) hne2
  | poll wOk =>
    have hstep : stepOp cooldown u (Op.poll wOk, now) =
        if shouldBackup cooldown now u && wOk then { u with lastBackupTime := now } else u := rfl
    have hcond : (shouldBackup cooldown now u && wOk) = true := by
      by_contra hc
      apply hne2
      rw [hstep]
      rw [Bool.not_eq_true] at hc
      simp [hc]
    rw [Bool.and_eq_true] at hcond
    obtain ⟨hsb, hw⟩ := hcond
    subst hw
    refine ⟨rfl, hsb, ?_⟩
    rw [hstep]
    simp [hsb]

/-- Witness for C8: a change at t=3 then a successful backup at t=10. -/
theorem autoBackup_C8_lastBackupTime_monotone_witness :
    List.Chain' (· ≤ ·) ((HState.mk 2 0).lastBackupTime ::
        ([(Op.event false, 3), (Op.poll true, 10)] : List (Op × ℤ)).map Prod.snd) ∧
      ((HState.mk 2 0).lastBackupTime ≤
          (runOps 5 [(Op.event false, 3), (Op.poll true, 10)] (HState.mk 2 0)).lastBackupTime ∧
        ∀ (op : Op) (now : ℤ) (u : HState),
          (stepOp 5 u (op, now)).lastBackupTime ≠ u.lastBackupTime →
            op = Op.poll true ∧ shouldBackup 5 now u = true ∧
              (stepOp 5 u (op, now)).lastBackupTime = now) :=
  ⟨by simp [List.chain'_cons],
    autoBackup_C8_lastBackupTime_monotone 5 [(Op.event false, 3), (Op.poll true, 10)]
      (HState.mk 2 0) (by simp [List.chain'_cons])⟩

example : shouldBackup 5 10 ⟨2, 0⟩ = true := by decide
example : shouldBackup 5 6 ⟨2, 0⟩ = false := by decide
example : shouldBackup 5 100 initState = false := by decide
example : matchesFilter ⟨"a.zip", false, 1⟩ = true := by decide
example : matchesFilter ⟨"backup_log.txt", false, 1⟩ = false := by decide
example : matchesFilter ⟨"misc", true, 1⟩ = true := by decide
example : sortByMtimeDesc [⟨"a.zip", false, 5⟩, ⟨"b.zip", false, 5⟩] =
    [⟨"a.zip", false, 5⟩, ⟨"b.zip", false, 5⟩] := by decide
example : cleanupBackups 1 [⟨"a.zip", false, 1⟩, ⟨"b.zip", false, 2⟩] =
    [⟨"b.zip", false, 2⟩] := by decide
example : cleanupBackups 0 [⟨"a.zip", false, 1⟩, ⟨"b.zip", false, 2⟩] =
    [⟨"a.zip", false, 1⟩, ⟨"b.zip", false, 2⟩] := by decide
example : backupConventionName "b_2025-01-01_00-00-00.zip" = true := by decide
example : backupConventionName "b_2025-01-01_00-00-00" = true := by decide
example : backupConventionName "misc" = false := by decide
example : backupConventionName "backup_log.txt" = false := by decide
example : sortSpecNameDesc [⟨"a.zip", false, 5⟩, ⟨"b.zip", false, 5⟩] =
    [⟨"b.zip", false, 5⟩, ⟨"a.zip", false, 5⟩] := by decide

end AutoBackup
